import Mathlib

/-!
A shallow embedding of the `pharos` broadcast/fan-out notification core
(`src/pharos.rs`, `src/error.rs`, `src/lib.rs`).

The registry (`Pharos`) holds a vector of optional senders, a free list of
reusable slot indices, and a `Ready`/`Closed` state.  The underlying
point-to-point channel primitive (`events.rs`) is an external collaborator:
its per-call answers (`is_closed`, enqueue success, readiness, flush and
close results) are supplied by an environment `Env` mapping slot indices to
responses, so every theorem quantifies over all channel behaviours.

The free-slot vector is modelled as a `List Nat` where `Vec::push` appends
at the end and `Vec::pop` removes the last element, matching Rust.
-/

namespace pharos

/-- Error kinds, from `src/error.rs` lines 41-60. -/
inductive ErrorKind where
  | SendError
  | Closed
  | MinChannelSizeOne
  | NonExhaustive
deriving DecidableEq, Repr

/-- Rust `std::task::Poll`: a poll either completes with a value or is pending. -/
inductive Poll (α : Type) where
  | Ready (val : α)
  | Pending
deriving DecidableEq, Repr

/-- Registry state, from `src/pharos.rs` lines 45-48. -/
inductive State where
  | Ready
  | Closed
deriving DecidableEq, Repr

/-- Modelled from the spec: the Channel Descriptor of `observable.rs` (not under
`src/`), "a closed, two-variant configuration value (Bounded(capacity) | Unbounded)". -/
inductive Channel where
  | Bounded (queue_size : Nat)
  | Unbounded
deriving DecidableEq, Repr

/-- Modelled from the spec: the `ObserveConfig` of `observable.rs` (not under
`src/`), "a configuration bundling Channel Descriptor and Filter". -/
structure ObserveConfig (Event : Type) where
  channel : Channel
  filter : Event → Bool

/-- Modelled from the spec: the sending half of one subscription channel from
`events.rs` (not under `src/`), "paired with that subscription's Filter".  The
channel internals are external collaborators; only the filter is registry data. -/
structure Sender (Event : Type) where
  filter : Event → Bool

/-- Modelled from the spec: `Events::new(options)` of `events.rs` (not under
`src/`) "allocates a fresh channel pair"; we model the sending half kept by the
registry, which carries the subscription's filter. -/
def Events.new {Event : Type} (options : ObserveConfig Event) : Sender Event :=
  { filter := options.filter }

/-- Tri-state answer of a non-blocking channel poll, per spec: accepted /
would-block / disconnected. -/
inductive SResp where
  | ok
  | pending
  | err
deriving DecidableEq, Repr

/-- Modelled from the spec: the per-call answers of one sender's channel
primitive (`events.rs`, not under `src/`): `is_closed` query, enqueue failure,
readiness poll, flush poll, and close failure.  The close operation is
non-blocking per spec §5/§6(d), hence a plain success/failure bit. -/
structure SenderResp where
  is_closed : Bool
  send_err : Bool
  ready_res : SResp
  flush_res : SResp
  close_err : Bool

/-- Channel environment: the responses each slot's sender gives during one
registry call. -/
abbrev Env := Nat → SenderResp

/-- The Pharos registry, from `src/pharos.rs` lines 31-41. -/
structure Pharos (Event : Type) where
  observers : List (Option (Sender Event))
  free_slots : List Nat
  state : State

variable {Event : Type}

/-- Embeds `Pharos::new` (`src/pharos.rs` lines 70-76); `capacity` only pre-allocates
vector storage and has no observable effect. -/
def Pharos.new (Event : Type) (capacity : Nat) : Pharos Event :=
  let _ := capacity
  { observers := [], free_slots := [], state := State.Ready }

/-- Embeds `Pharos::storage_len` (`src/pharos.rs` lines 81-83). -/
def Pharos.storage_len (ph : Pharos Event) : Nat :=
  ph.observers.length

/-- The loop of `Pharos::num_observers` (`src/pharos.rs` lines 89-104), over the
observers starting at index `i`: returns the live count, the updated observers
and the indices pushed onto `free_slots`, in push order. -/
def numObserversAux (env : Env) : Nat → List (Option (Sender Event)) →
    Nat × List (Option (Sender Event)) × List Nat
  | _, [] => (0, [], [])
  | i, none :: rest =>
    let r := numObserversAux env (i + 1) rest
    (r.1, none :: r.2.1, r.2.2)
  | i, some o :: rest =>
    if !(env i).is_closed then
      let r := numObserversAux env (i + 1) rest
      (r.1 + 1, some o :: r.2.1, r.2.2)
    else
      let r := numObserversAux env (i + 1) rest
      (r.1, none :: r.2.1, i :: r.2.2)

/-- Embeds `Pharos::num_observers` (`src/pharos.rs` lines 89-104). -/
def Pharos.num_observers (ph : Pharos Event) (env : Env) : Nat × Pharos Event :=
  let r := numObserversAux env 0 ph.observers
  (r.1,
   { ph with
      observers := r.2.1
      free_slots := ph.free_slots ++ r.2.2 })

/-- The slot-storing tail of `Pharos::observe` (`src/pharos.rs` lines 145-155):
reuse a free slot popped from the end of `free_slots` if available, else push. -/
def observeStore (ph : Pharos Event) (options : ObserveConfig Event) :
    Except ErrorKind Unit × Pharos Event :=
  let sender := Events.new options
  match ph.free_slots.getLast? with
  | some i =>
    (Except.ok (),
     { ph with
        observers := ph.observers.set i (some sender)
        free_slots := ph.free_slots.dropLast })
  | none =>
    (Except.ok (), { ph with observers := ph.observers ++ [some sender] })

/-- Embeds `Pharos::observe` (`src/pharos.rs` lines 130-156): fail with `Closed` on a
closed registry, reject `Bounded` capacities below one, else store the sender. -/
def Pharos.observe (ph : Pharos Event) (options : ObserveConfig Event) :
    Except ErrorKind Unit × Pharos Event :=
  if ph.state = State.Closed then
    (Except.error ErrorKind.Closed, ph)
  else
    match options.channel with
    | Channel.Bounded queue_size =>
      if queue_size < 1 then (Except.error ErrorKind.MinChannelSizeOne, ph)
      else observeStore ph options
    | Channel.Unbounded => observeStore ph options

/-- The loop of `poll_ready` (`src/pharos.rs` lines 174-184): the `ready!`
macro returns `Pending` at once (keeping mutations made so far); an erroring
sender has its slot emptied, with no `free_slots` push.  The boolean is `true`
when the loop completed (overall `Ready(Ok)`). -/
def pollReadyAux (env : Env) : Nat → List (Option (Sender Event)) →
    Bool × List (Option (Sender Event))
  | _, [] => (true, [])
  | i, none :: rest =>
    let r := pollReadyAux env (i + 1) rest
    (r.1, none :: r.2)
  | i, some o :: rest =>
    match (env i).ready_res with
    | SResp.pending => (false, some o :: rest)
    | SResp.err =>
      let r := pollReadyAux env (i + 1) rest
      (r.1, none :: r.2)
    | SResp.ok =>
      let r := pollReadyAux env (i + 1) rest
      (r.1, some o :: r.2)

/-- Embeds `Sink::poll_ready` for `Pharos` (`src/pharos.rs` lines 167-187). -/
def Pharos.poll_ready (ph : Pharos Event) (env : Env) :
    Poll (Except ErrorKind Unit) × Pharos Event :=
  if ph.state = State.Closed then
    (Poll.Ready (Except.error ErrorKind.Closed), ph)
  else
    let r := pollReadyAux env 0 ph.observers
    (if r.1 then Poll.Ready (Except.ok ()) else Poll.Pending,
     { ph with observers := r.2 })

/-- The loop of `start_send` (`src/pharos.rs` lines 196-219): a sender found
closed is dropped and its index freed; otherwise, if the filter accepts the
event an enqueue is attempted (recorded in the third component) and on enqueue
failure the slot is dropped and freed. -/
def startSendAux (env : Env) (evt : Event) : Nat → List (Option (Sender Event)) →
    List (Option (Sender Event)) × List Nat × List Nat
  | _, [] => ([], [], [])
  | i, none :: rest =>
    let r := startSendAux env evt (i + 1) rest
    (none :: r.1, r.2.1, r.2.2)
  | i, some obs :: rest =>
    let r := startSendAux env evt (i + 1) rest
    if (env i).is_closed then
      (none :: r.1, i :: r.2.1, r.2.2)
    else if obs.filter evt then
      if (env i).send_err then
        (none :: r.1, i :: r.2.1, i :: r.2.2)
      else
        (some obs :: r.1, r.2.1, i :: r.2.2)
    else
      (some obs :: r.1, r.2.1, r.2.2)

/-- Embeds `Sink::start_send` for `Pharos` (`src/pharos.rs` lines 189-222).  The third
component records, in order, the indices on which an enqueue was attempted. -/
def Pharos.start_send (ph : Pharos Event) (env : Env) (evt : Event) :
    Except ErrorKind Unit × Pharos Event × List Nat :=
  if ph.state = State.Closed then
    (Except.error ErrorKind.Closed, ph, [])
  else
    let r := startSendAux env evt 0 ph.observers
    (Except.ok (),
     { ph with
        observers := r.1
        free_slots := ph.free_slots ++ r.2.1 },
     r.2.2)

/-- The loop of `poll_flush` (`src/pharos.rs` lines 232-248): every slot is
polled; a pending slot sets the pending flag, an erroring slot is dropped and
its index freed. -/
def pollFlushAux (env : Env) : Nat → List (Option (Sender Event)) →
    Bool × List (Option (Sender Event)) × List Nat
  | _, [] => (false, [], [])
  | i, none :: rest =>
    let r := pollFlushAux env (i + 1) rest
    (r.1, none :: r.2.1, r.2.2)
  | i, some o :: rest =>
    let r := pollFlushAux env (i + 1) rest
    match (env i).flush_res with
    | SResp.pending => (true, some o :: r.2.1, r.2.2)
    | SResp.ok => (r.1, some o :: r.2.1, r.2.2)
    | SResp.err => (r.1, none :: r.2.1, i :: r.2.2)

/-- Embeds `Sink::poll_flush` for `Pharos` (`src/pharos.rs` lines 224-255). -/
def Pharos.poll_flush (ph : Pharos Event) (env : Env) :
    Poll (Except ErrorKind Unit) × Pharos Event :=
  if ph.state = State.Closed then
    (Poll.Ready (Except.error ErrorKind.Closed), ph)
  else
    let r := pollFlushAux env 0 ph.observers
    (if r.1 then Poll.Pending else Poll.Ready (Except.ok ()),
     { ph with
        observers := r.2.1
        free_slots := ph.free_slots ++ r.2.2 })

/-- The loop of `poll_close` (`src/pharos.rs` lines 269-279): every populated
slot's sender is asked to close; one that errors is dropped and its index
freed.  Per spec §5/§6(d) the sender close is non-blocking, so there is no
pending outcome. -/
def pollCloseAux (env : Env) : Nat → List (Option (Sender Event)) →
    List (Option (Sender Event)) × List Nat
  | _, [] => ([], [])
  | i, none :: rest =>
    let r := pollCloseAux env (i + 1) rest
    (none :: r.1, r.2)
  | i, some o :: rest =>
    let r := pollCloseAux env (i + 1) rest
    if (env i).close_err then
      (none :: r.1, i :: r.2)
    else
      (some o :: r.1, r.2)

/-- Embeds `Sink::poll_close` for `Pharos` (`src/pharos.rs` lines 260-282): a second
close returns at once; otherwise the state becomes `Closed` and every sender is
closed. -/
def Pharos.poll_close (ph : Pharos Event) (env : Env) :
    Poll (Except ErrorKind Unit) × Pharos Event :=
  if ph.state = State.Closed then
    (Poll.Ready (Except.ok ()), ph)
  else
    let r := pollCloseAux env 0 ph.observers
    (Poll.Ready (Except.ok ()),
     { observers := r.1
       free_slots := ph.free_slots ++ r.2
       state := State.Closed })

/-- One registry operation, with arbitrary channel responses. -/
inductive Step : Pharos Event → Pharos Event → Prop where
  | observe (ph : Pharos Event) (cfg : ObserveConfig Event) :
      Step ph (ph.observe cfg).2
  | num_observers (ph : Pharos Event) (env : Env) :
      Step ph (ph.num_observers env).2
  | poll_ready (ph : Pharos Event) (env : Env) :
      Step ph (ph.poll_ready env).2
  | start_send (ph : Pharos Event) (env : Env) (evt : Event) :
      Step ph (ph.start_send env evt).2.1
  | poll_flush (ph : Pharos Event) (env : Env) :
      Step ph (ph.poll_flush env).2
  | poll_close (ph : Pharos Event) (env : Env) :
      Step ph (ph.poll_close env).2

/-- Registry states reachable from a new registry by any operation sequence. -/
inductive Reachable : Pharos Event → Prop where
  | new (capacity : Nat) : Reachable (Pharos.new Event capacity)
  | step {ph ph2 : Pharos Event} : Reachable ph → Step ph ph2 → Reachable ph2

/-- Zero or more registry operations. -/
inductive Steps : Pharos Event → Pharos Event → Prop where
  | refl (ph : Pharos Event) : Steps ph ph
  | tail {ph ph2 ph3 : Pharos Event} : Steps ph ph2 → Step ph2 ph3 → Steps ph ph3

/-- Invariant I1: every index in `free_slots` refers to a currently empty slot
of the observers vector, and no index occurs twice in `free_slots`. -/
def Invariant (ph : Pharos Event) : Prop :=
  (∀ j ∈ ph.free_slots, ph.observers[j]? = some none) ∧ ph.free_slots.Nodup

/-- Proof device: the common shape of the registry's reclaiming loops.  Walks
the observers from index `i`; a populated slot satisfying `P` is emptied and
its index appended to the freed list, every other slot is kept. -/
def sweep (P : Nat → Sender Event → Bool) : Nat → List (Option (Sender Event)) →
    List (Option (Sender Event)) × List Nat
  | _, [] => ([], [])
  | i, none :: rest =>
    let r := sweep P (i + 1) rest
    (none :: r.1, r.2)
  | i, some o :: rest =>
    let r := sweep P (i + 1) rest
    if P i o then (none :: r.1, i :: r.2)
    else (some o :: r.1, r.2)

/-- A subscription configuration over `Bool` events whose filter accepts everything. -/
def trueCfg : ObserveConfig Bool :=
  { channel := Channel.Unbounded, filter := fun _ => true }

/-- A channel environment where every sender is healthy. -/
def okEnv : Env := fun _ =>
  { is_closed := false, send_err := false, ready_res := SResp.ok
    flush_res := SResp.ok, close_err := false }

/-- A channel environment where every sender reports closed. -/
def closedEnv : Env := fun _ =>
  { is_closed := true, send_err := false, ready_res := SResp.ok
    flush_res := SResp.ok, close_err := false }

/-- A channel environment where every readiness poll reports disconnected. -/
def readyErrEnv : Env := fun _ =>
  { is_closed := false, send_err := false, ready_res := SResp.err
    flush_res := SResp.ok, close_err := false }

/-- A subscription configuration over `Bool` events whose filter rejects everything. -/
def falseCfg : ObserveConfig Bool :=
  { channel := Channel.Unbounded, filter := fun _ => false }

/-- A registry with one live observer in slot 0. -/
def ph1 : Pharos Bool := ((Pharos.new Bool 0).observe trueCfg).2

/-- A registry with one live observer whose filter rejects everything. -/
def phNoneFilter : Pharos Bool := ((Pharos.new Bool 0).observe falseCfg).2

/-- The registry `ph1` after `num_observers` found its observer disconnected: slot 0 freed. -/
def phFreed : Pharos Bool := (ph1.num_observers closedEnv).2

/-- A freshly closed registry. -/
def phClosed : Pharos Bool := ((Pharos.new Bool 0).poll_close okEnv).2

/-! ### Properties of `sweep` -/

theorem sweep_length (P : Nat → Sender Event → Bool) (i : Nat)
    (l : List (Option (Sender Event))) : (sweep P i l).1.length = l.length := by
  induction l generalizing i with
  | nil => rfl
  | cons hd rest ih =>
    cases hd with
    | none => simp [sweep, ih]
    | some o =>
      by_cases h : P i o = true
      · simp [sweep, h, ih]
      · simp [sweep, h, ih]

theorem sweep_obs (P : Nat → Sender Event → Bool) (i : Nat)
    (l : List (Option (Sender Event))) (k : Nat) :
    (sweep P i l).1[k]? =
      (l[k]?).map (fun slot =>
        match slot with
        | none => none
        | some o => if P (i + k) o then none else some o) := by
  induction l generalizing i k with
  | nil => simp [sweep]
  | cons hd rest ih =>
    cases hd with
    | none =>
      cases k with
      | zero => simp [sweep]
      | succ k =>
        have harith : i + 1 + k = i + (k + 1) := by omega
        simp only [sweep, List.getElem?_cons_succ, ih, harith]
    | some o =>
      by_cases h : P i o = true
      · cases k with
        | zero => simp [sweep, h]
        | succ k =>
          have harith : i + 1 + k = i + (k + 1) := by omega
          simp only [sweep, h, if_true, List.getElem?_cons_succ, ih, harith]
      · cases k with
        | zero => simp [sweep, h]
        | succ k =>
          have harith : i + 1 + k = i + (k + 1) := by omega
          simp [sweep, h, List.getElem?_cons_succ, ih, harith]

theorem sweep_fs_mem (P : Nat → Sender Event → Bool) (i : Nat)
    (l : List (Option (Sender Event))) (j : Nat) :
    j ∈ (sweep P i l).2 ↔
      ∃ k o, j = i + k ∧ l[k]? = some (some o) ∧ P j o = true := by
  induction l generalizing i with
  | nil => simp [sweep]
  | cons hd rest ih =>
    cases hd with
    | none =>
      rw [show (sweep P i (none :: rest)).2 = (sweep P (i + 1) rest).2 from rfl, ih]
      constructor
      · rintro ⟨k, o, rfl, hk, hp⟩
        exact ⟨k + 1, o, by omega, by simpa using hk, hp⟩
      · rintro ⟨k, o, rfl, hk, hp⟩
        cases k with
        | zero => simp at hk
        | succ k =>
          exact ⟨k, o, by omega, by simpa using hk, hp⟩
    | some o0 =>
      by_cases h : P i o0 = true
      · rw [show (sweep P i (some o0 :: rest)).2 = i :: (sweep P (i + 1) rest).2 by
            simp [sweep, h]]
        rw [List.mem_cons, ih]
        constructor
        · rintro (rfl | ⟨k, o, rfl, hk, hp⟩)
          · exact ⟨0, o0, by omega, by simp, by simpa using h⟩
          · exact ⟨k + 1, o, by omega, by simpa using hk, hp⟩
        · rintro ⟨k, o, rfl, hk, hp⟩
          cases k with
          | zero => exact Or.inl (by omega)
          | succ k =>
            exact Or.inr ⟨k, o, by omega, by simpa using hk, hp⟩
      · rw [show (sweep P i (some o0 :: rest)).2 = (sweep P (i + 1) rest).2 by
            simp [sweep, h]]
        rw [ih]
        constructor
        · rintro ⟨k, o, rfl, hk, hp⟩
          exact ⟨k + 1, o, by omega, by simpa using hk, hp⟩
        · rintro ⟨k, o, rfl, hk, hp⟩
          cases k with
          | zero =>
            simp only [List.getElem?_cons_zero, Option.some.injEq] at hk
            rw [Nat.add_zero] at hp
            rw [hk] at h
            exact absurd hp h
          | succ k =>
            exact ⟨k, o, by omega, by simpa using hk, hp⟩

theorem sweep_fs_lb (P : Nat → Sender Event → Bool) (i : Nat)
    (l : List (Option (Sender Event))) (j : Nat)
    (hj : j ∈ (sweep P i l).2) : i ≤ j := by
  rcases (sweep_fs_mem P i l j).1 hj with ⟨k, o, rfl, _, _⟩
  omega

theorem sweep_fs_nodup (P : Nat → Sender Event → Bool) (i : Nat)
    (l : List (Option (Sender Event))) : (sweep P i l).2.Nodup := by
  induction l generalizing i with
  | nil => simp [sweep]
  | cons hd rest ih =>
    cases hd with
    | none => exact ih (i + 1)
    | some o =>
      by_cases h : P i o = true
      · rw [show (sweep P i (some o :: rest)).2 = i :: (sweep P (i + 1) rest).2 by
            simp [sweep, h]]
        refine List.nodup_cons.2 ⟨?_, ih (i + 1)⟩
        intro hmem
        have := sweep_fs_lb P (i + 1) rest i hmem
        omega
      · rw [show (sweep P i (some o :: rest)).2 = (sweep P (i + 1) rest).2 by
            simp [sweep, h]]
        exact ih (i + 1)

/-! ### The reclaiming loops are instances of `sweep` -/

theorem numObserversAux_eq_sweep (env : Env) (i : Nat)
    (l : List (Option (Sender Event))) :
    (numObserversAux env i l).2 = sweep (fun j _ => (env j).is_closed) i l := by
  induction l generalizing i with
  | nil => rfl
  | cons hd rest ih =>
    cases hd with
    | none => simp [numObserversAux, sweep, ih]
    | some o =>
      by_cases h : (env i).is_closed = true
      · simp [numObserversAux, sweep, h, ih]
      · simp [numObserversAux, sweep, h, ih]

theorem startSendAux_obs_eq_sweep (env : Env) (evt : Event) (i : Nat)
    (l : List (Option (Sender Event))) :
    (startSendAux env evt i l).1 =
      (sweep (fun j o => (env j).is_closed || (o.filter evt && (env j).send_err)) i l).1 := by
  induction l generalizing i with
  | nil => rfl
  | cons hd rest ih =>
    cases hd with
    | none => simp [startSendAux, sweep, ih]
    | some o =>
      by_cases h1 : (env i).is_closed = true
      · simp [startSendAux, sweep, h1, ih]
      · by_cases h2 : o.filter evt = true
        · by_cases h3 : (env i).send_err = true
          · simp [startSendAux, sweep, h1, h2, h3, ih]
          · simp [startSendAux, sweep, h1, h2, h3, ih]
        · simp [startSendAux, sweep, h1, h2, ih]

theorem startSendAux_fs_eq_sweep (env : Env) (evt : Event) (i : Nat)
    (l : List (Option (Sender Event))) :
    (startSendAux env evt i l).2.1 =
      (sweep (fun j o => (env j).is_closed || (o.filter evt && (env j).send_err)) i l).2 := by
  induction l generalizing i with
  | nil => rfl
  | cons hd rest ih =>
    cases hd with
    | none => simp [startSendAux, sweep, ih]
    | some o =>
      by_cases h1 : (env i).is_closed = true
      · simp [startSendAux, sweep, h1, ih]
      · by_cases h2 : o.filter evt = true
        · by_cases h3 : (env i).send_err = true
          · simp [startSendAux, sweep, h1, h2, h3, ih]
          · simp [startSendAux, sweep, h1, h2, h3, ih]
        · simp [startSendAux, sweep, h1, h2, ih]

theorem pollFlushAux_obs_eq_sweep (env : Env) (i : Nat)
    (l : List (Option (Sender Event))) :
    (pollFlushAux env i l).2.1 =
      (sweep (fun j _ => decide ((env j).flush_res = SResp.err)) i l).1 := by
  induction l generalizing i with
  | nil => rfl
  | cons hd rest ih =>
    cases hd with
    | none => simp [pollFlushAux, sweep, ih]
    | some o =>
      cases hf : (env i).flush_res with
      | ok => simp [pollFlushAux, sweep, hf, ih]
      | pending => simp [pollFlushAux, sweep, hf, ih]
      | err => simp [pollFlushAux, sweep, hf, ih]

theorem pollFlushAux_fs_eq_sweep (env : Env) (i : Nat)
    (l : List (Option (Sender Event))) :
    (pollFlushAux env i l).2.2 =
      (sweep (fun j _ => decide ((env j).flush_res = SResp.err)) i l).2 := by
  induction l generalizing i with
  | nil => rfl
  | cons hd rest ih =>
    cases hd with
    | none => simp [pollFlushAux, sweep, ih]
    | some o =>
      cases hf : (env i).flush_res with
      | ok => simp [pollFlushAux, sweep, hf, ih]
      | pending => simp [pollFlushAux, sweep, hf, ih]
      | err => simp [pollFlushAux, sweep, hf, ih]

theorem pollCloseAux_eq_sweep (env : Env) (i : Nat)
    (l : List (Option (Sender Event))) :
    pollCloseAux env i l = sweep (fun j _ => (env j).close_err) i l := by
  induction l generalizing i with
  | nil => rfl
  | cons hd rest ih =>
    cases hd with
    | none => simp [pollCloseAux, sweep, ih]
    | some o =>
      by_cases h : (env i).close_err = true
      · simp [pollCloseAux, sweep, h, ih]
      · simp [pollCloseAux, sweep, h, ih]

/-! ### `poll_ready` only empties slots and never touches `free_slots` -/

theorem pollReadyAux_obs (env : Env) (i : Nat)
    (l : List (Option (Sender Event))) (k : Nat) :
    (pollReadyAux env i l).2[k]? = l[k]? ∨ (pollReadyAux env i l).2[k]? = some none := by
  induction l generalizing i k with
  | nil => exact Or.inl rfl
  | cons hd rest ih =>
    cases hd with
    | none =>
      cases k with
      | zero => exact Or.inl (by simp [pollReadyAux])
      | succ k => simpa [pollReadyAux] using ih (i + 1) k
    | some o =>
      cases hr : (env i).ready_res with
      | pending => exact Or.inl (by simp [pollReadyAux, hr])
      | ok =>
        cases k with
        | zero => exact Or.inl (by simp [pollReadyAux, hr])
        | succ k => simpa [pollReadyAux, hr] using ih (i + 1) k
      | err =>
        cases k with
        | zero => exact Or.inr (by simp [pollReadyAux, hr])
        | succ k => simpa [pollReadyAux, hr] using ih (i + 1) k

/-! ### Invariant preservation -/

theorem sweep_keeps_invariant (P : Nat → Sender Event → Bool)
    (l : List (Option (Sender Event))) (fs : List Nat)
    (h1 : ∀ j ∈ fs, l[j]? = some none) (h2 : fs.Nodup) :
    (∀ j ∈ fs ++ (sweep P 0 l).2, (sweep P 0 l).1[j]? = some none) ∧
      (fs ++ (sweep P 0 l).2).Nodup := by
  constructor
  · intro j hj
    rcases List.mem_append.1 hj with hj | hj
    · rw [sweep_obs, h1 j hj]
      rfl
    · rcases (sweep_fs_mem P 0 l j).1 hj with ⟨k, o, hjk, hk, hp⟩
      have hkj : k = j := by omega
      rw [sweep_obs]
      rw [hkj] at hk
      rw [hk]
      have hz : 0 + j = j := by omega
      simp [hz, hp]
  · rw [List.nodup_append]
    refine ⟨h2, sweep_fs_nodup P 0 l, ?_⟩
    intro j hj hj2
    have hnone := h1 j hj
    rcases (sweep_fs_mem P 0 l j).1 hj2 with ⟨k, o, hjk, hk, _⟩
    have hkj : k = j := by omega
    rw [hkj] at hk
    rw [hnone] at hk
    exact Option.noConfusion (Option.some.inj hk)

theorem invariant_num_observers {ph : Pharos Event} (h : Invariant ph) (env : Env) :
    Invariant (ph.num_observers env).2 := by
  have hb := numObserversAux_eq_sweep env 0 ph.observers
  have hs := sweep_keeps_invariant (fun j _ => (env j).is_closed) ph.observers
    ph.free_slots h.1 h.2
  constructor
  · intro j hj
    simp only [Pharos.num_observers, hb] at hj ⊢
    exact hs.1 j hj
  · simp only [Pharos.num_observers, hb]
    exact hs.2

theorem invariant_start_send {ph : Pharos Event} (h : Invariant ph) (env : Env)
    (evt : Event) : Invariant (ph.start_send env evt).2.1 := by
  by_cases hc : ph.state = State.Closed
  · simpa [Pharos.start_send, hc] using h
  · have hobs := startSendAux_obs_eq_sweep env evt 0 ph.observers
    have hfs := startSendAux_fs_eq_sweep env evt 0 ph.observers
    have hs := sweep_keeps_invariant
      (fun j o => (env j).is_closed || (o.filter evt && (env j).send_err))
      ph.observers ph.free_slots h.1 h.2
    constructor
    · intro j hj
      simp only [Pharos.start_send, hc, if_false, hobs, hfs] at hj ⊢
      exact hs.1 j hj
    · simp only [Pharos.start_send, hc, if_false, hfs]
      exact hs.2

theorem invariant_poll_flush {ph : Pharos Event} (h : Invariant ph) (env : Env) :
    Invariant (ph.poll_flush env).2 := by
  by_cases hc : ph.state = State.Closed
  · simpa [Pharos.poll_flush, hc] using h
  · have hobs := pollFlushAux_obs_eq_sweep env 0 ph.observers
    have hfs := pollFlushAux_fs_eq_sweep env 0 ph.observers
    have hs := sweep_keeps_invariant (fun j _ => decide ((env j).flush_res = SResp.err))
      ph.observers ph.free_slots h.1 h.2
    constructor
    · intro j hj
      simp only [Pharos.poll_flush, hc, if_false, hobs, hfs] at hj ⊢
      exact hs.1 j hj
    · simp only [Pharos.poll_flush, hc, if_false, hfs]
      exact hs.2

theorem invariant_poll_close {ph : Pharos Event} (h : Invariant ph) (env : Env) :
    Invariant (ph.poll_close env).2 := by
  by_cases hc : ph.state = State.Closed
  · simpa [Pharos.poll_close, hc] using h
  · have hb := pollCloseAux_eq_sweep env 0 ph.observers
    have hs := sweep_keeps_invariant (fun j _ => (env j).close_err)
      ph.observers ph.free_slots h.1 h.2
    constructor
    · intro j hj
      simp only [Pharos.poll_close, hc, if_false, hb] at hj ⊢
      exact hs.1 j hj
    · simp only [Pharos.poll_close, hc, if_false, hb]
      exact hs.2

theorem invariant_poll_ready {ph : Pharos Event} (h : Invariant ph) (env : Env) :
    Invariant (ph.poll_ready env).2 := by
  by_cases hc : ph.state = State.Closed
  · simpa [Pharos.poll_ready, hc] using h
  · constructor
    · intro j hj
      simp only [Pharos.poll_ready, hc, if_false] at hj ⊢
      rcases pollReadyAux_obs env 0 ph.observers j with heq | heq
      · rw [heq]
        exact h.1 j hj
      · exact heq
    · simp only [Pharos.poll_ready, hc, if_false]
      exact h.2

theorem observeStore_pop {ph : Pharos Event} {i0 : Nat}
    (hlast : ph.free_slots.getLast? = some i0) (cfg : ObserveConfig Event) :
    observeStore ph cfg =
      (Except.ok (),
       { ph with
          observers := ph.observers.set i0 (some (Events.new cfg))
          free_slots := ph.free_slots.dropLast }) := by
  simp [observeStore, hlast]

theorem observeStore_push {ph : Pharos Event}
    (hlast : ph.free_slots.getLast? = none) (cfg : ObserveConfig Event) :
    observeStore ph cfg =
      (Except.ok (), { ph with observers := ph.observers ++ [some (Events.new cfg)] }) := by
  simp [observeStore, hlast]

theorem invariant_observe {ph : Pharos Event} (h : Invariant ph)
    (cfg : ObserveConfig Event) : Invariant (ph.observe cfg).2 := by
  by_cases hc : ph.state = State.Closed
  · simpa [Pharos.observe, hc] using h
  · have hstore : Invariant (observeStore ph cfg).2 := by
      cases hlast : ph.free_slots.getLast? with
      | none =>
        rw [observeStore_push hlast cfg]
        constructor
        · intro j hj
          have hnone := h.1 j hj
          have hlt : j < ph.observers.length := by
            by_contra hge
            rw [List.getElem?_eq_none (by omega)] at hnone
            exact Option.noConfusion hnone
          rw [List.getElem?_append, if_pos hlt]
          exact hnone
        · exact h.2
      | some i0 =>
        rw [observeStore_pop hlast cfg]
        have hsplit : ph.free_slots.dropLast ++ [i0] = ph.free_slots :=
          List.dropLast_append_getLast? i0 hlast
        have hnd : (ph.free_slots.dropLast ++ [i0]).Nodup := by
          rw [hsplit]; exact h.2
        constructor
        · intro j hj
          have hjmem : j ∈ ph.free_slots := by
            rw [← hsplit]
            exact List.mem_append_left _ hj
          have hne : j ≠ i0 := by
            intro heq
            rcases List.nodup_append.1 hnd with ⟨-, -, hdisj⟩
            exact hdisj hj (by rw [heq]; exact List.mem_singleton.2 rfl)
          rw [List.getElem?_set_ne (fun hcontra => hne hcontra.symm)]
          exact h.1 j hjmem
        · exact (List.nodup_append.1 hnd).1
    simp only [Pharos.observe, hc, if_false]
    cases cfg.channel with
    | Bounded q =>
      by_cases hq : q < 1
      · simpa [hq] using h
      · simpa [hq] using hstore
    | Unbounded => exact hstore

theorem invariant_step {ph ph2 : Pharos Event} (h : Invariant ph)
    (hs : Step ph ph2) : Invariant ph2 := by
  cases hs with
  | observe cfg => exact invariant_observe h cfg
  | num_observers env => exact invariant_num_observers h env
  | poll_ready env => exact invariant_poll_ready h env
  | start_send env evt => exact invariant_start_send h env evt
  | poll_flush env => exact invariant_poll_flush h env
  | poll_close env => exact invariant_poll_close h env

theorem reachable_invariant {ph : Pharos Event} (h : Reachable ph) : Invariant ph := by
  induction h with
  | new capacity => exact ⟨by simp [Pharos.new], by simp [Pharos.new]⟩
  | step _ hs ih => exact invariant_step ih hs

/-! ### The enqueue attempts of `start_send` -/

theorem startSendAux_att_mem (env : Env) (evt : Event) (i : Nat)
    (l : List (Option (Sender Event))) (j : Nat) :
    j ∈ (startSendAux env evt i l).2.2 ↔
      ∃ k o, j = i + k ∧ l[k]? = some (some o) ∧
        (env j).is_closed = false ∧ o.filter evt = true := by
  induction l generalizing i with
  | nil => simp [startSendAux]
  | cons hd rest ih =>
    cases hd with
    | none =>
      rw [show (startSendAux env evt i (none :: rest)).2.2
            = (startSendAux env evt (i + 1) rest).2.2 by simp [startSendAux], ih]
      constructor
      · rintro ⟨k, o, rfl, hk, hcl, hf⟩
        exact ⟨k + 1, o, by omega, by simpa using hk, hcl, hf⟩
      · rintro ⟨k, o, rfl, hk, hcl, hf⟩
        cases k with
        | zero => simp at hk
        | succ k => exact ⟨k, o, by omega, by simpa using hk, hcl, hf⟩
    | some o0 =>
      by_cases h1 : (env i).is_closed = true
      · rw [show (startSendAux env evt i (some o0 :: rest)).2.2
              = (startSendAux env evt (i + 1) rest).2.2 by simp [startSendAux, h1], ih]
        constructor
        · rintro ⟨k, o, rfl, hk, hcl, hf⟩
          exact ⟨k + 1, o, by omega, by simpa using hk, hcl, hf⟩
        · rintro ⟨k, o, rfl, hk, hcl, hf⟩
          cases k with
          | zero =>
            rw [Nat.add_zero] at hcl
            simp [hcl] at h1
          | succ k => exact ⟨k, o, by omega, by simpa using hk, hcl, hf⟩
      · by_cases h2 : o0.filter evt = true
        · have hatt : (startSendAux env evt i (some o0 :: rest)).2.2
              = i :: (startSendAux env evt (i + 1) rest).2.2 := by
            by_cases h3 : (env i).send_err = true
            · simp [startSendAux, h1, h2, h3]
            · simp [startSendAux, h1, h2, h3]
          rw [hatt, List.mem_cons, ih]
          constructor
          · rintro (rfl | ⟨k, o, rfl, hk, hcl, hf⟩)
            · exact ⟨0, o0, by omega, by simp, by simpa using h1, h2⟩
            · exact ⟨k + 1, o, by omega, by simpa using hk, hcl, hf⟩
          · rintro ⟨k, o, rfl, hk, hcl, hf⟩
            cases k with
            | zero => exact Or.inl (by omega)
            | succ k => exact Or.inr ⟨k, o, by omega, by simpa using hk, hcl, hf⟩
        · rw [show (startSendAux env evt i (some o0 :: rest)).2.2
                = (startSendAux env evt (i + 1) rest).2.2 by simp [startSendAux, h1, h2], ih]
          constructor
          · rintro ⟨k, o, rfl, hk, hcl, hf⟩
            exact ⟨k + 1, o, by omega, by simpa using hk, hcl, hf⟩
          · rintro ⟨k, o, rfl, hk, hcl, hf⟩
            cases k with
            | zero =>
              simp only [List.getElem?_cons_zero, Option.some.injEq] at hk
              rw [← hk] at hf
              exact absurd hf h2
            | succ k => exact ⟨k, o, by omega, by simpa using hk, hcl, hf⟩

/-! ### Freed-index counting -/

theorem sweep_emptied_cond {P : Nat → Sender Event → Bool}
    {l : List (Option (Sender Event))} {i : Nat} {o : Sender Event}
    (ho : l[i]? = some (some o))
    (hempt : (sweep P 0 l).1[i]? = some none) : P i o = true := by
  have hobs := sweep_obs P 0 l i
  rw [ho] at hobs
  by_cases hP : P i o = true
  · exact hP
  · rw [hempt] at hobs
    have hz : (0 : Nat) + i = i := by omega
    rw [hz] at hobs
    simp [hP] at hobs

theorem sweep_freed_count {P : Nat → Sender Event → Bool}
    {l : List (Option (Sender Event))} {fs : List Nat} {i : Nat} {o : Sender Event}
    (hfree : ∀ j ∈ fs, l[j]? = some none)
    (ho : l[i]? = some (some o))
    (hempt : (sweep P 0 l).1[i]? = some none) :
    (fs ++ (sweep P 0 l).2).count i = 1 := by
  have hP := sweep_emptied_cond ho hempt
  have hmem : i ∈ (sweep P 0 l).2 :=
    (sweep_fs_mem P 0 l i).2 ⟨i, o, by omega, ho, hP⟩
  have h0 : fs.count i = 0 := by
    rw [List.count_eq_zero]
    intro hmem0
    rw [hfree i hmem0] at ho
    exact Option.noConfusion (Option.some.inj ho)
  rw [List.count_append, h0, List.count_eq_one_of_mem (sweep_fs_nodup P 0 l) hmem]

/-! ### `Closed` is absorbing -/

theorem step_state_closed {ph ph2 : Pharos Event}
    (hc : ph.state = State.Closed) (hs : Step ph ph2) : ph2.state = State.Closed := by
  cases hs with
  | observe cfg => simp [Pharos.observe, hc]
  | num_observers env => simp [Pharos.num_observers, hc]
  | poll_ready env => simp [Pharos.poll_ready, hc]
  | start_send env evt => simp [Pharos.start_send, hc]
  | poll_flush env => simp [Pharos.poll_flush, hc]
  | poll_close env => simp [Pharos.poll_close, hc]

theorem steps_state_closed {ph ph2 : Pharos Event}
    (hc : ph.state = State.Closed) (hs : Steps ph ph2) : ph2.state = State.Closed := by
  induction hs with
  | refl => exact hc
  | tail _ hstep ih => exact step_state_closed ih hstep

/-! ### Small facts about `observe` and `start_send` -/

theorem observeStore_ok (ph : Pharos Event) (cfg : ObserveConfig Event) :
    (observeStore ph cfg).1 = Except.ok () := by
  cases hlast : ph.free_slots.getLast? with
  | none => rw [observeStore_push hlast]
  | some i0 => rw [observeStore_pop hlast]

theorem start_send_state (ph : Pharos Event) (env : Env) (evt : Event) :
    (ph.start_send env evt).2.1.state = ph.state := by
  by_cases hc : ph.state = State.Closed
  · simp [Pharos.start_send, hc]
  · simp [Pharos.start_send, hc]

theorem start_send_open_obs {ph : Pharos Event} (hc : ph.state ≠ State.Closed)
    (env : Env) (evt : Event) :
    (ph.start_send env evt).2.1.observers = (startSendAux env evt 0 ph.observers).1 := by
  simp [Pharos.start_send, hc]

theorem start_send_open_fs {ph : Pharos Event} (hc : ph.state ≠ State.Closed)
    (env : Env) (evt : Event) :
    (ph.start_send env evt).2.1.free_slots =
      ph.free_slots ++ (startSendAux env evt 0 ph.observers).2.1 := by
  simp [Pharos.start_send, hc]

theorem start_send_open_att {ph : Pharos Event} (hc : ph.state ≠ State.Closed)
    (env : Env) (evt : Event) :
    (ph.start_send env evt).2.2 = (startSendAux env evt 0 ph.observers).2.2 := by
  simp [Pharos.start_send, hc]

theorem num_observers_obs (ph : Pharos Event) (env : Env) :
    (ph.num_observers env).2.observers = (numObserversAux env 0 ph.observers).2.1 := rfl

theorem num_observers_fs (ph : Pharos Event) (env : Env) :
    (ph.num_observers env).2.free_slots =
      ph.free_slots ++ (numObserversAux env 0 ph.observers).2.2 := rfl

theorem poll_flush_open_obs {ph : Pharos Event} (hc : ph.state ≠ State.Closed)
    (env : Env) :
    (ph.poll_flush env).2.observers = (pollFlushAux env 0 ph.observers).2.1 := by
  simp [Pharos.poll_flush, hc]

theorem poll_flush_open_fs {ph : Pharos Event} (hc : ph.state ≠ State.Closed)
    (env : Env) :
    (ph.poll_flush env).2.free_slots =
      ph.free_slots ++ (pollFlushAux env 0 ph.observers).2.2 := by
  simp [Pharos.poll_flush, hc]

theorem poll_ready_fs (ph : Pharos Event) (env : Env) :
    (ph.poll_ready env).2.free_slots = ph.free_slots := by
  by_cases hc : ph.state = State.Closed
  · simp [Pharos.poll_ready, hc]
  · simp [Pharos.poll_ready, hc]

/-! ## The claims -/

/-- C2: dispatch and close-all never suspend.  `start_send` always returns a
synchronous `Result` — `Ok` or the `Closed` error, with no pending outcome —
and `poll_close` always returns `Poll.Ready (Ok ())`, never `Poll.Pending`,
for every registry state, event and channel environment.  (The sender-side
close is modelled from the spec as non-blocking, `events.rs` not being under
`src/`.) -/
theorem claim_C2_no_suspend (ph : Pharos Event) (env : Env) (evt : Event) :
    (ph.poll_close env).1 = Poll.Ready (Except.ok ()) ∧
    ((ph.start_send env evt).1 = Except.ok () ∨
      (ph.start_send env evt).1 = Except.error ErrorKind.Closed) := by
  constructor
  · by_cases hc : ph.state = State.Closed
    · simp [Pharos.poll_close, hc]
    · simp [Pharos.poll_close, hc]
  · by_cases hc : ph.state = State.Closed
    · exact Or.inr (by simp [Pharos.start_send, hc])
    · exact Or.inl (by simp [Pharos.start_send, hc])

/-- C8: close-all is idempotent.  `poll_close` on a registry whose state is
already `Closed` immediately returns `Ready (Ok ())` and leaves the whole
registry — observers, free_slots and state — unchanged. -/
theorem claim_C8_close_idempotent (ph : Pharos Event) (env : Env)
    (h : ph.state = State.Closed) :
    ph.poll_close env = (Poll.Ready (Except.ok ()), ph) := by
  simp [Pharos.poll_close, h]

/-- Witness for C8 at a registry closed by a first `poll_close`. -/
theorem claim_C8_close_idempotent_witness :
    phClosed.poll_close okEnv = (Poll.Ready (Except.ok ()), phClosed) :=
  claim_C8_close_idempotent phClosed okEnv rfl

/-- C10: on a `Closed` registry, `observe` returns the `Closed` error even for
the invalid configuration `Bounded 0`; `MinChannelSizeOne` is never returned
by a `Closed` registry. -/
theorem claim_C10_closed_precedence (ph : Pharos Event)
    (h : ph.state = State.Closed) (f : Event → Bool) :
    (ph.observe { channel := Channel.Bounded 0, filter := f }).1
        = Except.error ErrorKind.Closed ∧
    ∀ cfg : ObserveConfig Event,
      (ph.observe cfg).1 ≠ Except.error ErrorKind.MinChannelSizeOne := by
  constructor
  · simp [Pharos.observe, h]
  · intro cfg
    simp [Pharos.observe, h]

/-- Witness for C10 at a concrete closed registry and `Bounded 0` config. -/
theorem claim_C10_closed_precedence_witness :
    (phClosed.observe { channel := Channel.Bounded 0, filter := fun _ => true }).1
      = Except.error ErrorKind.Closed :=
  (claim_C10_closed_precedence phClosed rfl (fun _ => true)).1

/-- C6: on a non-`Closed` registry, `observe` with `Bounded 0` fails with
`MinChannelSizeOne` and leaves the registry untouched, while `Bounded n` for
`n ≥ 1` and `Unbounded` succeed; on any `observe` failure the registry is
returned exactly as it was. -/
theorem claim_C6_min_channel_size (ph : Pharos Event)
    (hst : ph.state ≠ State.Closed) (f : Event → Bool) :
    ph.observe { channel := Channel.Bounded 0, filter := f }
        = (Except.error ErrorKind.MinChannelSizeOne, ph) ∧
    (∀ n, 1 ≤ n →
      (ph.observe { channel := Channel.Bounded n, filter := f }).1 = Except.ok ()) ∧
    (ph.observe { channel := Channel.Unbounded, filter := f }).1 = Except.ok () ∧
    ∀ (cfg : ObserveConfig Event) (e : ErrorKind),
      (ph.observe cfg).1 = Except.error e → (ph.observe cfg).2 = ph := by
  refine ⟨?_, ?_, ?_, ?_⟩
  · simp [Pharos.observe, hst]
  · intro n hn
    have hnlt : ¬n < 1 := by omega
    simp [Pharos.observe, hst, hnlt, observeStore_ok]
  · simp [Pharos.observe, hst, observeStore_ok]
  · intro cfg e herr
    cases hch : cfg.channel with
    | Bounded q =>
      by_cases hq : q < 1
      · simp [Pharos.observe, hst, hch, hq]
      · rw [Pharos.observe, if_neg hst, hch] at herr
        simp [hq, observeStore_ok] at herr
    | Unbounded =>
      rw [Pharos.observe, if_neg hst, hch] at herr
      simp [observeStore_ok] at herr

/-- Witness for C6: a fresh registry rejects `Bounded 0` with no side effect. -/
theorem claim_C6_min_channel_size_witness :
    ph1.observe { channel := Channel.Bounded 0, filter := fun _ => true }
      = (Except.error ErrorKind.MinChannelSizeOne, ph1) :=
  (claim_C6_min_channel_size ph1 (by decide) (fun _ => true)).1

/-- C7: after close-all, the registry state is `Closed` at every later point —
through any further operation sequence — and every subsequent `observe` and
`start_send` call fails with the `Closed` error, while `poll_ready` returns
`Ready (Err Closed)`. -/
theorem claim_C7_closed_forever (ph : Pharos Event) (env : Env) (ph2 : Pharos Event)
    (hsteps : Steps (ph.poll_close env).2 ph2) (cfg : ObserveConfig Event)
    (env2 env3 : Env) (evt : Event) :
    ph2.state = State.Closed ∧
    (ph2.observe cfg).1 = Except.error ErrorKind.Closed ∧
    (ph2.start_send env2 evt).1 = Except.error ErrorKind.Closed ∧
    (ph2.poll_ready env3).1 = Poll.Ready (Except.error ErrorKind.Closed) := by
  have h0 : (ph.poll_close env).2.state = State.Closed := by
    by_cases hc : ph.state = State.Closed
    · simp [Pharos.poll_close, hc]
    · simp [Pharos.poll_close, hc]
  have h2 := steps_state_closed h0 hsteps
  exact ⟨h2, by simp [Pharos.observe, h2], by simp [Pharos.start_send, h2],
    by simp [Pharos.poll_ready, h2]⟩

/-- Witness for C7 right after closing a fresh registry. -/
theorem claim_C7_closed_forever_witness :
    phClosed.state = State.Closed ∧
    (phClosed.observe trueCfg).1 = Except.error ErrorKind.Closed ∧
    (phClosed.start_send okEnv true).1 = Except.error ErrorKind.Closed ∧
    (phClosed.poll_ready okEnv).1 = Poll.Ready (Except.error ErrorKind.Closed) :=
  claim_C7_closed_forever (Pharos.new Bool 0) okEnv phClosed (Steps.refl _)
    trueCfg okEnv okEnv true

/-- C3: `start_send` errors exactly when the registry is `Closed`, and that
error is `ErrorKind.Closed`.  A sender found already disconnected, or one whose
enqueue fails, never makes `start_send` fail: its slot is emptied and recorded
free instead, and every other live, filter-accepting slot still gets its
enqueue attempt. -/
theorem claim_C3_dispatch_errors (ph : Pharos Event) (env : Env) (evt : Event) :
    ((ph.start_send env evt).1 = Except.error ErrorKind.Closed ↔
        ph.state = State.Closed) ∧
    (∀ e, (ph.start_send env evt).1 = Except.error e → e = ErrorKind.Closed) ∧
    (∀ i (o : Sender Event), ph.state ≠ State.Closed →
      ph.observers[i]? = some (some o) →
      ((env i).is_closed = true ∨ (o.filter evt = true ∧ (env i).send_err = true)) →
      (ph.start_send env evt).2.1.observers[i]? = some none ∧
        i ∈ (ph.start_send env evt).2.1.free_slots) ∧
    (∀ i (o : Sender Event), ph.state ≠ State.Closed →
      ph.observers[i]? = some (some o) →
      (env i).is_closed = false → o.filter evt = true → (env i).send_err = false →
      i ∈ (ph.start_send env evt).2.2 ∧
        (ph.start_send env evt).2.1.observers[i]? = some (some o)) := by
  refine ⟨?_, ?_, ?_, ?_⟩
  · by_cases hc : ph.state = State.Closed
    · simp [Pharos.start_send, hc]
    · simp [Pharos.start_send, hc]
  · intro e he
    by_cases hc : ph.state = State.Closed
    · simp [Pharos.start_send, hc] at he
      exact he.symm
    · simp [Pharos.start_send, hc] at he
  · intro i o hc ho hcond
    have hP : ((env i).is_closed || (o.filter evt && (env i).send_err)) = true := by
      rcases hcond with h | ⟨hf, hs⟩
      · simp [h]
      · simp [hf, hs]
    constructor
    · rw [start_send_open_obs hc, startSendAux_obs_eq_sweep, sweep_obs, ho]
      have hz : (0 : Nat) + i = i := by omega
      simp only [Option.map_some', hz, hP, if_true]
    · rw [start_send_open_fs hc, startSendAux_fs_eq_sweep]
      refine List.mem_append_right _ ?_
      exact (sweep_fs_mem _ 0 ph.observers i).2 ⟨i, o, by omega, ho, by simpa using hP⟩
  · intro i o hc ho hcl hf hs
    constructor
    · rw [start_send_open_att hc, startSendAux_att_mem]
      exact ⟨i, o, by omega, ho, hcl, hf⟩
    · rw [start_send_open_obs hc, startSendAux_obs_eq_sweep, sweep_obs, ho]
      have hz : (0 : Nat) + i = i := by omega
      simp [hz, hcl, hs]

/-- Witness for C3: on a one-observer registry with a disconnected sender, the
slot is emptied, index 0 is freed, and the call still returns `Ok`. -/
theorem claim_C3_dispatch_errors_witness :
    (ph1.start_send closedEnv true).1 = Except.ok () ∧
    (ph1.start_send closedEnv true).2.1.observers[0]? = some none ∧
    0 ∈ (ph1.start_send closedEnv true).2.1.free_slots := by
  have h := (claim_C3_dispatch_errors ph1 closedEnv true).2.2.1 0 (Events.new trueCfg)
    (by decide) rfl (Or.inl rfl)
  exact ⟨rfl, h.1, h.2⟩

/-- C5: during dispatch on a non-`Closed` registry, a populated slot whose
sender is not closed and whose filter rejects the event gets no enqueue
attempt, keeps its sender, and stays out of `free_slots`; it can still receive
a later event its filter accepts. -/
theorem claim_C5_filter_reject (ph : Pharos Event) (h : Reachable ph)
    (hst : ph.state ≠ State.Closed) (i : Nat) (o : Sender Event)
    (env : Env) (evt : Event) (ho : ph.observers[i]? = some (some o))
    (hcl : (env i).is_closed = false) (hf : o.filter evt = false) :
    i ∉ (ph.start_send env evt).2.2 ∧
    (ph.start_send env evt).2.1.observers[i]? = some (some o) ∧
    i ∉ (ph.start_send env evt).2.1.free_slots ∧
    ∀ (env2 : Env) (evt2 : Event), (env2 i).is_closed = false →
      o.filter evt2 = true →
      i ∈ ((ph.start_send env evt).2.1.start_send env2 evt2).2.2 := by
  have hinv := reachable_invariant h
  have hkeep : (ph.start_send env evt).2.1.observers[i]? = some (some o) := by
    rw [start_send_open_obs hst, startSendAux_obs_eq_sweep, sweep_obs, ho]
    have hz : (0 : Nat) + i = i := by omega
    simp [hz, hcl, hf]
  refine ⟨?_, hkeep, ?_, ?_⟩
  · rw [start_send_open_att hst, startSendAux_att_mem]
    rintro ⟨k, o2, hik, hk, hcl2, hf2⟩
    have hki : k = i := by omega
    rw [hki, ho] at hk
    have ho2 : o = o2 := by
      have := Option.some.inj hk
      exact Option.some.inj this
    rw [← ho2] at hf2
    rw [hf2] at hf
    exact Bool.noConfusion hf
  · rw [start_send_open_fs hst, startSendAux_fs_eq_sweep]
    intro hmem
    rcases List.mem_append.1 hmem with hmem | hmem
    · rw [hinv.1 i hmem] at ho
      exact Option.noConfusion (Option.some.inj ho)
    · rcases (sweep_fs_mem _ 0 ph.observers i).1 hmem with ⟨k, o2, hik, hk, hPk⟩
      have hki : k = i := by omega
      rw [hki, ho] at hk
      have ho2 : o = o2 := by
        have := Option.some.inj hk
        exact Option.some.inj this
      rw [← ho2, hcl, hf] at hPk
      exact Bool.noConfusion hPk
  · intro env2 evt2 hcl2 hf2
    have hst2 : (ph.start_send env evt).2.1.state ≠ State.Closed := by
      rw [start_send_state]
      exact hst
    rw [start_send_open_att hst2, startSendAux_att_mem]
    exact ⟨i, o, by omega, hkeep, hcl2, hf2⟩

/-- Witness for C5: an everything-rejecting filter is skipped by dispatching
`true` but still gets the enqueue attempt for a later accepted event. -/
theorem claim_C5_filter_reject_witness :
    0 ∉ (phNoneFilter.start_send okEnv true).2.2 ∧
    (phNoneFilter.start_send okEnv true).2.1.observers[0]? =
      some (some (Events.new falseCfg)) ∧
    0 ∉ (phNoneFilter.start_send okEnv true).2.1.free_slots := by
  have h := claim_C5_filter_reject phNoneFilter
    (Reachable.step (Reachable.new 0) (Step.observe _ falseCfg)) (by decide)
    0 (Events.new falseCfg) okEnv true rfl rfl rfl
  exact ⟨h.1, h.2.1, h.2.2.1⟩

/-- C4: invariant I1 holds in every reachable registry state: every index in
`free_slots` refers to a currently empty slot of the observers vector, and no
index occurs twice in `free_slots`. -/
theorem claim_C4_invariant (ph : Pharos Event) (h : Reachable ph) :
    (∀ j ∈ ph.free_slots, ph.observers[j]? = some none) ∧
    ∀ j, ph.free_slots.count j ≤ 1 := by
  have hinv := reachable_invariant h
  exact ⟨hinv.1, fun j => List.nodup_iff_count_le_one.1 hinv.2 j⟩

/-- Witness for C4 at a reachable state with a non-empty free list. -/
theorem claim_C4_invariant_witness :
    (∀ j ∈ phFreed.free_slots, phFreed.observers[j]? = some none) ∧
    ∀ j, phFreed.free_slots.count j ≤ 1 :=
  claim_C4_invariant phFreed
    (Reachable.step (Reachable.step (Reachable.new 0) (Step.observe _ trueCfg))
      (Step.num_observers _ closedEnv))

/-- C9: a successful `observe` reuses freed slots in LIFO order before growing
storage: with a non-empty free list it pops the most recently pushed index,
stores the new sender there and keeps `storage_len`; with an empty free list
it appends a new slot, growing `storage_len` by one. -/
theorem claim_C9_lifo_reuse (ph : Pharos Event) (cfg : ObserveConfig Event)
    (hok : (ph.observe cfg).1 = Except.ok ()) :
    (∀ fs0 i, ph.free_slots = fs0 ++ [i] →
      (ph.observe cfg).2.observers = ph.observers.set i (some (Events.new cfg)) ∧
      (ph.observe cfg).2.free_slots = fs0 ∧
      (ph.observe cfg).2.storage_len = ph.storage_len) ∧
    (ph.free_slots = [] →
      (ph.observe cfg).2.observers = ph.observers ++ [some (Events.new cfg)] ∧
      (ph.observe cfg).2.storage_len = ph.storage_len + 1) := by
  by_cases hc : ph.state = State.Closed
  · simp [Pharos.observe, hc] at hok
  · have hobs_eq : ph.observe cfg = observeStore ph cfg := by
      cases hch : cfg.channel with
      | Bounded q =>
        by_cases hq : q < 1
        · rw [Pharos.observe, if_neg hc, hch] at hok
          simp [hq] at hok
        · rw [Pharos.observe, if_neg hc, hch]
          simp [hq]
      | Unbounded => rw [Pharos.observe, if_neg hc, hch]
    rw [hobs_eq]
    constructor
    · intro fs0 i hfs
      have hlast : ph.free_slots.getLast? = some i := by
        rw [hfs]
        exact List.getLast?_concat fs0
      rw [observeStore_pop hlast]
      refine ⟨rfl, ?_, ?_⟩
      · show ph.free_slots.dropLast = fs0
        rw [hfs]
        exact List.dropLast_concat
      · simp [Pharos.storage_len]
    · intro hfs
      have hlast : ph.free_slots.getLast? = none := by
        rw [hfs]
        rfl
      rw [observeStore_push hlast]
      exact ⟨rfl, by simp [Pharos.storage_len]⟩

/-- Witness for C9: subscribing on a registry whose free list is `[0]` reuses
slot 0 without growing storage. -/
theorem claim_C9_lifo_reuse_witness :
    (phFreed.observe trueCfg).2.observers =
      phFreed.observers.set 0 (some (Events.new trueCfg)) ∧
    (phFreed.observe trueCfg).2.free_slots = [] ∧
    (phFreed.observe trueCfg).2.storage_len = phFreed.storage_len :=
  (claim_C9_lifo_reuse phFreed trueCfg rfl).1 [] 0 rfl

/-- C1 (counterexample to the claim as stated): in the reachable one-observer
registry `ph1`, `poll_ready` detects the disconnect of slot 0 — the call
completes and empties the slot — yet index 0 appears zero times, not once, in
`free_slots` when the call returns. -/
theorem claim_C1_counterexample :
    Reachable ph1 ∧
    ph1.observers[0]? = some (some (Events.new trueCfg)) ∧
    (ph1.poll_ready readyErrEnv).1 = Poll.Ready (Except.ok ()) ∧
    (ph1.poll_ready readyErrEnv).2.observers[0]? = some none ∧
    (ph1.poll_ready readyErrEnv).2.free_slots.count 0 = 0 :=
  ⟨Reachable.step (Reachable.new 0) (Step.observe _ trueCfg), rfl, rfl, rfl, rfl⟩

/-- C1 (amended): in every reachable registry state, when a populated slot is
found disconnected and emptied by dispatch (`start_send`), drain-check
(`poll_flush`) or `num_observers`, its index is in `free_slots` exactly once
when the call returns; when it is emptied by ready-check (`poll_ready`), its
index is not added to `free_slots` at all (it appears zero times). -/
theorem claim_C1_freed_exactly_once (ph : Pharos Event) (h : Reachable ph)
    (i : Nat) (o : Sender Event) (env : Env) (evt : Event)
    (ho : ph.observers[i]? = some (some o)) :
    ((ph.num_observers env).2.observers[i]? = some none →
      (ph.num_observers env).2.free_slots.count i = 1) ∧
    ((ph.start_send env evt).2.1.observers[i]? = some none →
      (ph.start_send env evt).2.1.free_slots.count i = 1) ∧
    ((ph.poll_flush env).2.observers[i]? = some none →
      (ph.poll_flush env).2.free_slots.count i = 1) ∧
    ((ph.poll_ready env).2.observers[i]? = some none →
      (ph.poll_ready env).2.free_slots.count i = 0) := by
  have hinv := reachable_invariant h
  refine ⟨?_, ?_, ?_, ?_⟩
  · intro hempt
    rw [num_observers_obs, numObserversAux_eq_sweep] at hempt
    rw [num_observers_fs, numObserversAux_eq_sweep]
    exact sweep_freed_count hinv.1 ho hempt
  · intro hempt
    by_cases hc : ph.state = State.Closed
    · simp [Pharos.start_send, hc] at hempt
      rw [ho] at hempt
      exact absurd (Option.some.inj hempt) (by simp)
    · rw [start_send_open_obs hc, startSendAux_obs_eq_sweep] at hempt
      rw [start_send_open_fs hc, startSendAux_fs_eq_sweep]
      exact sweep_freed_count hinv.1 ho hempt
  · intro hempt
    by_cases hc : ph.state = State.Closed
    · simp [Pharos.poll_flush, hc] at hempt
      rw [ho] at hempt
      exact absurd (Option.some.inj hempt) (by simp)
    · rw [poll_flush_open_obs hc, pollFlushAux_obs_eq_sweep] at hempt
      rw [poll_flush_open_fs hc, pollFlushAux_fs_eq_sweep]
      exact sweep_freed_count hinv.1 ho hempt
  · intro hempt
    rw [poll_ready_fs]
    rw [List.count_eq_zero]
    intro hmem
    rw [hinv.1 i hmem] at ho
    exact absurd (Option.some.inj ho) (by simp)

/-- Witness for the amended C1: `num_observers` finding slot 0 disconnected
leaves index 0 in the free list exactly once. -/
theorem claim_C1_freed_exactly_once_witness :
    (ph1.num_observers closedEnv).2.free_slots.count 0 = 1 := by
  have h := claim_C1_freed_exactly_once ph1
    (Reachable.step (Reachable.new 0) (Step.observe _ trueCfg)) 0
    (Events.new trueCfg) closedEnv true rfl
  exact h.1 rfl

end pharos
